import Mathlib

/-!
Verification of the resource-allocation core of the OpenMDAO framework
(`openmdao.main/src/openmdao/main/resource.py`), as a shallow embedding.

Scores are Python numbers used only through comparisons; they are embedded
as rationals.  Allocator responses are embedded as lists of
`(score, criteria)` pairs, one per registered allocator in registration
order, and the manager's selection pass `_get_scores` as a fold over that
list with the source's exact adoption condition.
-/

namespace OpenMDAOResource

/-- A package distribution as used by `required_distributions`; only its
`as_requirement()` view is consumed. -/
structure Dist where
  as_requirement : String
  deriving DecidableEq, Repr

/-- Python values occurring in a resource description (`resource_desc`). -/
inductive RValue where
  | bool (b : Bool)
  | num (n : Int)
  | dists (ds : List Dist)
  | mods (ms : List String)
  | str (s : String)
  deriving DecidableEq, Repr

/-- Python truthiness (`if not value`) for the embedded values. -/
def RValue.truthy : RValue → Bool
  | .bool b => b
  | .num n => n ≠ 0
  | .dists ds => !ds.isEmpty
  | .mods ms => !ms.isEmpty
  | .str s => !s.isEmpty

/-- Numeric view used by the `value > self.total_cpus` comparison; Python
bools are ints, other non-numeric operands are not exercised by the claims. -/
def RValue.toNum : RValue → Int
  | .bool b => if b then 1 else 0
  | .num n => n
  | _ => 0

/-- View of a value as a distribution list (`required_distributions`). -/
def RValue.asDists : RValue → List Dist
  | .dists ds => ds
  | _ => []

/-- View of a value as a module-name list (`orphan_modules`). -/
def RValue.asMods : RValue → List String
  | .mods ms => ms
  | _ => []

/-- View of a value as a string (`python_version`). -/
def RValue.asStr : RValue → String
  | .str s => s
  | _ => ""

/-- The criteria dictionaries returned alongside scores, plus Python `None`
(the sentinel criteria and the `(0, None)` results). -/
inductive Criteria where
  | pyNone
  | keyVal (key : String) (v : RValue)
  | requiredDistributions (missing : List String)
  | orphanModules (missing : List String)
  | emptyDict
  | load (one five fifteen : ℚ) (max_load : ℚ)
  deriving DecidableEq, Repr

/-- One allocator's answer to `rate_resource`: a `(score, criteria)` pair. -/
structure Response where
  score : ℚ
  criteria : Criteria
  deriving DecidableEq, Repr

/-- The manager's running best during `_get_scores`:
`(best_score, best_criteria, best_allocator)`, the allocator recorded by its
registration index. -/
structure Best where
  score : ℚ
  criteria : Option Criteria
  alloc : Option Nat
  deriving DecidableEq, Repr

/-- The sentinel the scan starts from: `best_score = -2`, criteria and
allocator `None`. -/
def sentinelBest : Best := ⟨-2, none, none⟩

/-- The adoption condition of `_get_scores`, verbatim from the source:
`(best_score == -2 and score >= -1) or (best_score == 0 and score > 0) or
(best_score > 0 and score < best_score)`. -/
def adoptCond (b : Best) (score : ℚ) : Prop :=
  (b.score = -2 ∧ -1 ≤ score) ∨ (b.score = 0 ∧ 0 < score) ∨ (0 < b.score ∧ score < b.score)

instance (b : Best) (score : ℚ) : Decidable (adoptCond b score) := by
  unfold adoptCond; infer_instance

/-- The scan of `_get_scores` over the allocator list, tracking the
registration index of the current allocator. -/
def getScoresFrom (i : Nat) (b : Best) : List Response → Best
  | [] => b
  | r :: rest =>
      getScoresFrom (i + 1)
        (if adoptCond b r.score then ⟨r.score, some r.criteria, some i⟩ else b) rest

/-- The manager's `_get_scores`: fold the adoption rule over the
registered allocators' responses, starting from the sentinel. -/
def getScores (rs : List Response) : Best := getScoresFrom 0 sentinelBest rs

/-! ### The Local Allocator (`LocalAllocator`) -/

/-- Configuration of a `LocalAllocator` (constructor arguments
`total_cpus=1, max_load=2`). -/
structure LocalCfg where
  total_cpus : Int := 1
  max_load : ℚ := 2
  deriving DecidableEq, Repr

/-- The environment the local allocator probes: `sys.version[:3]`, the result
of `os.getloadavg()` (`none` models the `AttributeError` platforms), the
external `check_requirements` collaborator (returning the unavailable
requirements), and module importability for `__import__`. -/
structure SysEnv where
  version3 : String
  loadavgs : Option (ℚ × ℚ × ℚ)
  check_requirements : List String → List String
  importable : String → Bool

/-- The allocator's `check_required_distributions`: build the sorted
requirement list, ask the external checker, and report `-2` with the missing
set when anything is unavailable. -/
def check_required_distributions (env : SysEnv) (resource_value : List Dist) :
    ℚ × Criteria :=
  let required := resource_value.map Dist.as_requirement
  let not_avail := env.check_requirements (required.mergeSort (· ≤ ·))
  if not_avail.isEmpty then (0, .pyNone)
  else (-2, .requiredDistributions not_avail)

/-- The allocator's `check_orphan_modules`: collect, in sorted order, the
modules that fail to import, and report `-2` with that set when nonempty. -/
def check_orphan_modules (env : SysEnv) (resource_value : List String) :
    ℚ × Criteria :=
  let not_found := (resource_value.mergeSort (· ≤ ·)).filter
    fun m => !env.importable m
  if 0 < not_found.length then (-2, .orphanModules not_found)
  else (0, .pyNone)

/-- The trailing system-load check of `LocalAllocator.rate_resource`. -/
def loadCheck (cfg : LocalCfg) (env : SysEnv) : ℚ × Criteria :=
  match env.loadavgs with
  | none => (0, .emptyDict)
  | some (one, five, fifteen) =>
      if one < cfg.max_load then (0, .load one five fifteen cfg.max_load)
      else (-1, .load one five fifteen cfg.max_load)

/-- The local allocator's `rate_resource`: walk the request's key/value pairs in
order, returning `-2` at the first failing key, and fall through to the load
check when every key passes. -/
def rate_resource (cfg : LocalCfg) (env : SysEnv) :
    List (String × RValue) → ℚ × Criteria
  | [] => loadCheck cfg env
  | (key, value) :: rest =>
      if key = "localhost" then
        if !value.truthy then (-2, .keyVal key value)
        else rate_resource cfg env rest
      else if key = "n_cpus" then
        if cfg.total_cpus < value.toNum then (-2, .keyVal key value)
        else rate_resource cfg env rest
      else if key = "required_distributions" then
        if (check_required_distributions env value.asDists).1 < 0 then
          check_required_distributions env value.asDists
        else rate_resource cfg env rest
      else if key = "orphan_modules" then
        if (check_orphan_modules env value.asMods).1 < 0 then
          check_orphan_modules env value.asMods
        else rate_resource cfg env rest
      else if key = "python_version" then
        if env.version3 ≠ value.asStr then (-2, .keyVal key value)
        else rate_resource cfg env rest
      else (-2, .keyVal key value)

/-- The keys `LocalAllocator.rate_resource` recognizes. -/
def recognizedKeys : List String :=
  ["localhost", "n_cpus", "required_distributions", "orphan_modules",
   "python_version"]

/-- Whether a single key/value pair passes its check in
`LocalAllocator.rate_resource` (the negation of each early-return
condition; unrecognized keys never pass). -/
def keyPasses (cfg : LocalCfg) (env : SysEnv) (kv : String × RValue) : Prop :=
  if kv.1 = "localhost" then kv.2.truthy = true
  else if kv.1 = "n_cpus" then ¬ cfg.total_cpus < kv.2.toNum
  else if kv.1 = "required_distributions" then
    ¬ (check_required_distributions env kv.2.asDists).1 < 0
  else if kv.1 = "orphan_modules" then
    ¬ (check_orphan_modules env kv.2.asMods).1 < 0
  else if kv.1 = "python_version" then env.version3 = kv.2.asStr
  else False

instance (cfg : LocalCfg) (env : SysEnv) (kv : String × RValue) :
    Decidable (keyPasses cfg env kv) := by
  unfold keyPasses; infer_instance

/-- Criteria that are not load-average figures. -/
def notLoad (c : Criteria) : Prop := ∀ a b c' d, c ≠ .load a b c' d

/-! ### The allocation loop (`ResourceAllocationManager._allocate`) -/

/-- A deployed server proxy: the values its `get_name`, `get_pid` and
`get_host` accessors return. -/
structure Server where
  name : String
  pid : Int
  host : String
  deriving DecidableEq, Repr

/-- The `server_info` dictionary built on successful deployment:
`{'name': ..., 'pid': ..., 'host': ...}`. -/
structure ServerInfo where
  name : String
  pid : Int
  host : String
  deriving DecidableEq, Repr

/-- Extraction of `server_info` from the deployed server. -/
def serverInfoOf (s : Server) : ServerInfo := ⟨s.name, s.pid, s.host⟩

/-- The synthesized handle name `'Sim-%d' % self._allocations`. -/
def simName (n : Nat) : String := "Sim-" ++ Nat.repr n

/-- Python exceptions the embedded loop can raise. -/
inductive PyError where
  | nameError (missing : String)
  | attributeError
  deriving DecidableEq, Repr

/-- Outcome of `_allocate`: a normal return (`(server, server_info)` or
`(None, None)`), a propagated exception, or exhaustion of the evaluation
fuel (the loop still running). -/
inductive AllocResult where
  | ok (r : Option (Server × ServerInfo))
  | err (e : PyError)
  | outOfFuel
  deriving DecidableEq, Repr

/-- The names bound at the top of `resource.py` by its import statements
(lines 6-15).  `time` is not among them, so the `time.sleep(1)` call in
`_allocate` raises a `NameError` when reached. -/
def moduleTopNames : List String :=
  ["logging", "os", "platform", "sys", "threading", "traceback",
   "mp_distributing", "ObjServerFactory", "ObjServer", "check_requirements"]

/-- Whether the name `time` is defined in the module scope of
`resource.py`. -/
def timeDefined : Bool := moduleTopNames.contains "time"

/-- The world `_allocate` interacts with: `rounds t` gives the registered
allocators' `rate_resource` answers at scoring pass `t` (the environment may
change between passes), and `deploy a d` the result of the `d`-th deploy
call, made on the allocator at registration index `a` (`none` models a
failed deployment). -/
structure Env where
  rounds : Nat → List Response
  deploy : Nat → Nat → Option Server

/-- The mutable state threaded through `_allocate`:
`deployment_retries`, the manager-wide `self._allocations` counter, and the
instrumentation the claims talk about: scoring passes done, counter values
consumed by deploy calls, and completed sleeps. -/
structure LoopState where
  retries : Nat
  allocations : Nat
  passes : Nat
  deploys : List Nat
  sleeps : Nat
  deriving DecidableEq, Repr

/-- One `while best_score == -1` iteration of `_allocate`, with fuel to make
the possibly diverging loop a total function. -/
def allocLoop (env : Env) : Nat → LoopState → AllocResult × LoopState
  | 0, s => (.outOfFuel, s)
  | fuel + 1, s =>
      if 0 ≤ (getScores (env.rounds s.passes)).score then
        match (getScores (env.rounds s.passes)).alloc with
        | none => (.err .attributeError, { s with passes := s.passes + 1 })
        | some a =>
            match env.deploy a s.deploys.length with
            | some server =>
                (.ok (some (server, serverInfoOf server)),
                 { s with passes := s.passes + 1,
                          allocations := s.allocations + 1,
                          deploys := s.deploys ++ [s.allocations + 1] })
            | none =>
                if 10 < s.retries + 1 then
                  (.ok none,
                   { s with passes := s.passes + 1,
                            allocations := s.allocations + 1,
                            deploys := s.deploys ++ [s.allocations + 1],
                            retries := s.retries + 1 })
                else
                  allocLoop env fuel
                    { s with passes := s.passes + 1,
                             allocations := s.allocations + 1,
                             deploys := s.deploys ++ [s.allocations + 1],
                             retries := s.retries + 1 }
      else if (getScores (env.rounds s.passes)).score ≠ -1 then
        (.ok none, { s with passes := s.passes + 1 })
      else if timeDefined then
        allocLoop env fuel { s with passes := s.passes + 1, sleeps := s.sleeps + 1 }
      else
        (.err (.nameError "time"), { s with passes := s.passes + 1 })

/-- The manager's `_allocate`, entered with
`deployment_retries = 0` and the manager's current allocation counter. -/
def runAllocate (env : Env) (allocations0 fuel : Nat) : AllocResult × LoopState :=
  allocLoop env fuel ⟨0, allocations0, 0, [], 0⟩

/-- A sequence of `allocate` calls on one manager (serialized by its lock):
thread the allocation counter through, collecting every counter value
consumed by a deploy call.  Returns the final counter and that list. -/
def runSeq : List (Env × Nat) → Nat → Nat × List Nat
  | [], a => (a, [])
  | (env, fuel) :: rest, a =>
      ((runSeq rest (runAllocate env a fuel).2.allocations).1,
        (runAllocate env a fuel).2.deploys ++
          (runSeq rest (runAllocate env a fuel).2.allocations).2)

/-- The consecutive counter values `al+1, al+2, ..., al+m`. -/
def consecFrom (al m : Nat) : List Nat := (List.range m).map (fun i => al + i + 1)

/-- The decimal digits of a number, most significant first (the digit
sequence `%d` formatting prints). -/
def digits10 (n : Nat) : List Nat :=
  if h : n < 10 then [n]
  else digits10 (n / 10) ++ [n % 10]
decreasing_by exact Nat.div_lt_self (by omega) (by omega)

/-- Read a digit list back as a number. -/
def digitsVal (l : List Nat) : Nat := l.foldl (fun a d => 10 * a + d) 0

/-! ### `ResourceAllocationManager.release` -/

/-- A server proxy handed to `release`: the name `get_name()` returns and
the outcome of its `cleanup()` call (`error` carries the traceback text of
the raised exception). -/
structure ReleasedServer where
  name : String
  cleanup : Except String Unit
  deriving Repr

/-- Output `release` emits while swallowing a cleanup failure: the logger
warning, or the `sys.stderr` print used when the logger itself raises. -/
inductive LogEvent where
  | warning (name trace : String)
  | stderrPrint (name trace : String)
  deriving DecidableEq, Repr

/-- The manager's `release`: try `server.cleanup()`; on an
exception, log a warning through the manager's logger, falling back to a
`sys.stderr` print when the logger itself raises; in every case return
normally. -/
def release (server : ReleasedServer) (loggerRaises : Bool) :
    Except String Unit × List LogEvent :=
  match server.cleanup with
  | .ok _ => (.ok (), [])
  | .error trace =>
      if loggerRaises then (.ok (), [.stderrPrint server.name trace])
      else (.ok (), [.warning server.name trace])

/-! ### Concrete instances used by counterexamples and witnesses -/

/-- Build a `Response` from a `rate_resource` result. -/
def responseOf (p : ℚ × Criteria) : Response := ⟨p.1, p.2⟩

/-- A `LocalAllocator()` with its default configuration. -/
def cfgDefault : LocalCfg := {}

/-- A host whose Python is 2.7, load average `(1, 0, 0)`, with every
requirement available and every module importable. -/
def envStd : SysEnv := ⟨"2.7", some (1, 0, 0), fun _ => [], fun _ => true⟩

/-- The same host under load `(3, 1, 1)`, above the default `max_load`. -/
def envBusy : SysEnv := ⟨"2.7", some (3, 1, 1), fun _ => [], fun _ => true⟩

/-- Responses refuting the universal tie-break law: scores `0, 5, 0`. -/
def rsTie : List Response := [⟨0, .pyNone⟩, ⟨5, .pyNone⟩, ⟨0, .pyNone⟩]

/-- Responses witnessing the amended tie-break law: scores `-2, 0, 0`. -/
def rsTieW : List Response := [⟨-2, .pyNone⟩, ⟨0, .pyNone⟩, ⟨0, .pyNone⟩]

/-- Responses refuting "can serve beats cannot": scores `-1, 0`. -/
def rsServe : List Response := [⟨-1, .pyNone⟩, ⟨0, .pyNone⟩]

/-- Responses witnessing the amended serve law: scores `-2, 0`. -/
def rsServeW : List Response := [⟨-2, .pyNone⟩, ⟨0, .pyNone⟩]

/-- One registered `LocalAllocator` on a busy host rating
`{'localhost': True}`: it answers `-1` at every scoring pass, and deploys
never happen. -/
def envShortage : Env :=
  ⟨fun _ => [responseOf (rate_resource cfgDefault envBusy [("localhost", .bool true)])],
   fun _ _ => none⟩

/-- An allocator that always wins with score `0` but whose deployments all
fail. -/
def envFailDeploy : Env := ⟨fun _ => [⟨0, .pyNone⟩], fun _ _ => none⟩

/-- One registered `LocalAllocator` rating `{'localhost': False}`: it
answers `-2`. -/
def envNotLocal : Env :=
  ⟨fun _ => [responseOf (rate_resource cfgDefault envStd [("localhost", .bool false)])],
   fun _ _ => none⟩

/-- A server whose cleanup raises. -/
def srvBadCleanup : ReleasedServer := ⟨"Sim-1", .error "boom"⟩

/-! ### Lemmas and claim theorems -/

theorem getScoresFrom_nil (i : Nat) (b : Best) : getScoresFrom i b [] = b := rfl

theorem getScoresFrom_cons (i : Nat) (b : Best) (r : Response) (rest : List Response) :
    getScoresFrom i b (r :: rest) =
      getScoresFrom (i + 1)
        (if adoptCond b r.score then ⟨r.score, some r.criteria, some i⟩ else b) rest := rfl

/-- Once the running best has a score in `(-2, 0]` and every remaining score
is nonpositive, no further adoption fires. -/
theorem getScoresFrom_stuck (rs : List Response) :
    ∀ i (b : Best), b.score ≠ -2 → b.score ≤ 0 →
      (∀ r ∈ rs, r.score ≤ 0) → getScoresFrom i b rs = b := by
  induction rs with
  | nil => intro i b _ _ _; rfl
  | cons r rest ih =>
      intro i b hne hle hall
      rw [getScoresFrom_cons]
      have hr : r.score ≤ 0 := hall r (List.mem_cons_self r rest)
      have hcond : ¬ adoptCond b r.score := by
        rintro (⟨h2, _⟩ | ⟨h0, hpos⟩ | ⟨hpos, _⟩)
        · exact hne h2
        · exact absurd (lt_of_lt_of_le hpos hr) (lt_irrefl 0)
        · exact absurd (lt_of_lt_of_le hpos hle) (lt_irrefl 0)
      rw [if_neg hcond]
      exact ih (i + 1) b hne hle fun s hs => hall s (List.mem_cons_of_mem r hs)

/-- While every score seen is below `-1`, the scan stays at the sentinel. -/
theorem getScoresFrom_sentinel (rs : List Response) :
    ∀ i, (∀ r ∈ rs, r.score < -1) → getScoresFrom i sentinelBest rs = sentinelBest := by
  induction rs with
  | nil => intro i _; rfl
  | cons r rest ih =>
      intro i hall
      rw [getScoresFrom_cons]
      have hr : r.score < -1 := hall r (List.mem_cons_self r rest)
      have hcond : ¬ adoptCond sentinelBest r.score := by
        rintro (⟨_, hge⟩ | ⟨h0, _⟩ | ⟨hpos, _⟩)
        · exact absurd (lt_of_le_of_lt hge hr) (lt_irrefl _)
        · exact absurd h0 (by norm_num [sentinelBest])
        · exact absurd hpos (by norm_num [sentinelBest])
      rw [if_neg hcond]
      exact ih (i + 1) fun s hs => hall s (List.mem_cons_of_mem r hs)

/-- With only nonpositive scores, the scan adopts the first allocator whose
score is at least `-1` and then never moves. -/
theorem getScoresFrom_first (rs : List Response) :
    ∀ i0 j (hj : j < rs.length), (∀ r ∈ rs, r.score ≤ 0) →
      (∀ k (hk : k < j), (rs.get ⟨k, lt_trans hk hj⟩).score < -1) →
      -1 ≤ (rs.get ⟨j, hj⟩).score →
      getScoresFrom i0 sentinelBest rs =
        ⟨(rs.get ⟨j, hj⟩).score, some (rs.get ⟨j, hj⟩).criteria, some (i0 + j)⟩ := by
  induction rs with
  | nil => intro i0 j hj; exact absurd hj (Nat.not_lt_zero j)
  | cons r rest ih =>
      intro i0 j hj hall hmin hge
      rw [getScoresFrom_cons]
      cases j with
      | zero =>
          have hge0 : -1 ≤ r.score := hge
          have hcond : adoptCond sentinelBest r.score := Or.inl ⟨rfl, hge0⟩
          rw [if_pos hcond]
          have hne : (⟨r.score, some r.criteria, some i0⟩ : Best).score ≠ -2 := by
            intro h
            have : r.score = -2 := h
            rw [this] at hge0
            norm_num at hge0
          have hle : (⟨r.score, some r.criteria, some i0⟩ : Best).score ≤ 0 :=
            hall r (List.mem_cons_self r rest)
          rw [getScoresFrom_stuck rest (i0 + 1) _ hne hle
            fun s hs => hall s (List.mem_cons_of_mem r hs)]
          simp
      | succ j' =>
          have hr : r.score < -1 := hmin 0 (Nat.succ_pos j')
          have hcond : ¬ adoptCond sentinelBest r.score := by
            rintro (⟨_, hge'⟩ | ⟨h0, _⟩ | ⟨hpos, _⟩)
            · exact absurd (lt_of_le_of_lt hge' hr) (lt_irrefl _)
            · exact absurd h0 (by norm_num [sentinelBest])
            · exact absurd hpos (by norm_num [sentinelBest])
          rw [if_neg hcond]
          have hj' : j' < rest.length := Nat.lt_of_succ_lt_succ hj
          have heq := ih (i0 + 1) j' hj'
            (fun s hs => hall s (List.mem_cons_of_mem r hs))
            (fun k hk => hmin (k + 1) (Nat.succ_lt_succ hk))
            hge
          rw [heq]
          have harith : i0 + 1 + j' = i0 + (j' + 1) := by omega
          rw [harith]
          rfl

/-- Once an allocator has been adopted, the scan always reports some
allocator. -/
theorem getScoresFrom_alloc_isSome (rs : List Response) :
    ∀ i (b : Best), b.alloc.isSome → ((getScoresFrom i b rs).alloc).isSome := by
  induction rs with
  | nil => intro i b h; exact h
  | cons r rest ih =>
      intro i b h
      rw [getScoresFrom_cons]
      by_cases hc : adoptCond b r.score
      · rw [if_pos hc]; exact ih (i + 1) _ rfl
      · rw [if_neg hc]; exact ih (i + 1) b h

/-- If the scan reports no allocator, it never adopted anything and returns
its starting state unchanged. -/
theorem getScoresFrom_alloc_none (rs : List Response) :
    ∀ i (b : Best), (getScoresFrom i b rs).alloc = none → getScoresFrom i b rs = b := by
  induction rs with
  | nil => intro i b _; rfl
  | cons r rest ih =>
      intro i b h
      rw [getScoresFrom_cons] at h ⊢
      by_cases hc : adoptCond b r.score
      · rw [if_pos hc] at h
        have := getScoresFrom_alloc_isSome rest (i + 1) ⟨r.score, some r.criteria, some i⟩ rfl
        rw [h] at this
        exact absurd this (by simp)
      · rw [if_neg hc] at h ⊢
        exact ih (i + 1) b h

/-- A best score other than `-2` implies some allocator was adopted. -/
theorem getScores_alloc_of_score_ne (rs : List Response)
    (h : (getScores rs).score ≠ -2) : (getScores rs).alloc.isSome := by
  by_contra hnone
  have : (getScores rs).alloc = none := by
    cases hh : (getScores rs).alloc with
    | none => rfl
    | some a => rw [hh] at hnone; exact absurd rfl hnone
  have := getScoresFrom_alloc_none rs 0 sentinelBest this
  rw [getScores] at h
  rw [this] at h
  exact h rfl

/-- With only nonpositive scores, the allocator the scan reports is the first
one whose score was at least `-1`; every earlier allocator scored below `-1`,
and the reported best score is that allocator's score. -/
theorem getScores_nonpos_char (rs : List Response)
    (hall : ∀ r ∈ rs, r.score ≤ 0) :
    ∀ i0 k, (getScoresFrom i0 sentinelBest rs).alloc = some k →
      ∃ j, ∃ hj : j < rs.length, k = i0 + j ∧
        -1 ≤ (rs.get ⟨j, hj⟩).score ∧
        (rs.get ⟨j, hj⟩).score = (getScoresFrom i0 sentinelBest rs).score ∧
        ∀ m (hm : m < j), (rs.get ⟨m, lt_trans hm hj⟩).score < -1 := by
  induction rs with
  | nil => intro i0 k h; exact absurd h (by simp [getScoresFrom_nil, sentinelBest])
  | cons r rest ih =>
      intro i0 k h
      by_cases hge : -1 ≤ r.score
      · have hfirst := getScoresFrom_first (r :: rest) i0 0 (Nat.succ_pos rest.length)
          hall (fun m hm => absurd hm (Nat.not_lt_zero m)) hge
        rw [hfirst] at h ⊢
        refine ⟨0, Nat.succ_pos rest.length, ?_, hge, rfl, ?_⟩
        · have : k = i0 + 0 := by
            have := Option.some.inj h
            omega
          exact this
        · intro m hm; exact absurd hm (Nat.not_lt_zero m)
      · push_neg at hge
        have hcond : ¬ adoptCond sentinelBest r.score := by
          rintro (⟨_, hge'⟩ | ⟨h0, _⟩ | ⟨hpos, _⟩)
          · exact absurd hge' (not_le.mpr hge)
          · exact absurd h0 (by norm_num [sentinelBest])
          · exact absurd hpos (by norm_num [sentinelBest])
        rw [getScoresFrom_cons, if_neg hcond] at h ⊢
        obtain ⟨j, hj, hk, hjge, hjscore, hjmin⟩ :=
          ih (fun s hs => hall s (List.mem_cons_of_mem r hs)) (i0 + 1) k h
        refine ⟨j + 1, Nat.succ_lt_succ hj, by omega, hjge, hjscore, ?_⟩
        intro m hm
        cases m with
        | zero => exact hge
        | succ m' => exact hjmin m' (Nat.lt_of_succ_lt_succ hm)

/-- A negative result of the distribution check is `-2` with a
`required_distributions` explanation. -/
theorem check_required_neg (env : SysEnv) (v : List Dist)
    (h : (check_required_distributions env v).1 < 0) :
    (check_required_distributions env v).1 = -2 ∧
      ∃ ms, (check_required_distributions env v).2 = .requiredDistributions ms := by
  simp only [check_required_distributions] at h ⊢
  split at h
  · norm_num at h
  · next hcond =>
      rw [if_neg hcond]
      exact ⟨rfl, _, rfl⟩

/-- A negative result of the orphan-module check is `-2` with an
`orphan_modules` explanation. -/
theorem check_orphan_neg (env : SysEnv) (v : List String)
    (h : (check_orphan_modules env v).1 < 0) :
    (check_orphan_modules env v).1 = -2 ∧
      ∃ ms, (check_orphan_modules env v).2 = .orphanModules ms := by
  simp only [check_orphan_modules] at h ⊢
  split at h
  · next hcond =>
      rw [if_pos hcond]
      exact ⟨rfl, _, rfl⟩
  · norm_num at h

/-- Any early return of `rate_resource` (one fired inside the key loop)
scores `-2` and carries a non-load explanation. -/
theorem rate_resource_unrecognized (cfg : LocalCfg) (env : SysEnv) :
    ∀ desc : List (String × RValue),
      (∃ kv ∈ desc, kv.1 ∉ recognizedKeys) →
      (rate_resource cfg env desc).1 = -2 ∧ notLoad (rate_resource cfg env desc).2 := by
  intro desc
  induction desc with
  | nil => rintro ⟨kv, hmem, _⟩; exact absurd hmem (List.not_mem_nil kv)
  | cons hd rest ih =>
      rintro ⟨kv, hmem, hunrec⟩
      obtain ⟨k, v⟩ := hd
      have hrest : kv ∈ rest → (rate_resource cfg env rest).1 = -2 ∧
          notLoad (rate_resource cfg env rest).2 := fun hm => ih ⟨kv, hm, hunrec⟩
      show (rate_resource cfg env ((k, v) :: rest)).1 = -2 ∧ _
      rw [rate_resource]
      by_cases h1 : k = "localhost"
      · rw [if_pos h1]
        have hk : kv ∈ rest := by
          rcases List.mem_cons.mp hmem with heq | hm
          · subst heq; exact absurd (by simp [recognizedKeys, h1]) hunrec
          · exact hm
        split
        · exact ⟨rfl, by intro a b c' d h; cases h⟩
        · exact hrest hk
      · rw [if_neg h1]
        by_cases h2 : k = "n_cpus"
        · rw [if_pos h2]
          have hk : kv ∈ rest := by
            rcases List.mem_cons.mp hmem with heq | hm
            · subst heq; exact absurd (by simp [recognizedKeys, h2]) hunrec
            · exact hm
          split
          · exact ⟨rfl, by intro a b c' d h; cases h⟩
          · exact hrest hk
        · rw [if_neg h2]
          by_cases h3 : k = "required_distributions"
          · rw [if_pos h3]
            have hk : kv ∈ rest := by
              rcases List.mem_cons.mp hmem with heq | hm
              · subst heq; exact absurd (by simp [recognizedKeys, h3]) hunrec
              · exact hm
            split
            · next hneg =>
                obtain ⟨hs, ms, hc⟩ := check_required_neg env v.asDists hneg
                exact ⟨hs, by rw [hc]; intro a b c' d h; cases h⟩
            · exact hrest hk
          · rw [if_neg h3]
            by_cases h4 : k = "orphan_modules"
            · rw [if_pos h4]
              have hk : kv ∈ rest := by
                rcases List.mem_cons.mp hmem with heq | hm
                · subst heq; exact absurd (by simp [recognizedKeys, h4]) hunrec
                · exact hm
              split
              · next hneg =>
                  obtain ⟨hs, ms, hc⟩ := check_orphan_neg env v.asMods hneg
                  exact ⟨hs, by rw [hc]; intro a b c' d h; cases h⟩
              · exact hrest hk
            · rw [if_neg h4]
              by_cases h5 : k = "python_version"
              · rw [if_pos h5]
                have hk : kv ∈ rest := by
                  rcases List.mem_cons.mp hmem with heq | hm
                  · subst heq; exact absurd (by simp [recognizedKeys, h5]) hunrec
                  · exact hm
                split
                · exact ⟨rfl, by intro a b c' d h; cases h⟩
                · exact hrest hk
              · rw [if_neg h5]
                exact ⟨rfl, by intro a b c' d h; cases h⟩

/-- When every key/value pair passes its check, `rate_resource` reaches the
system-load check. -/
theorem rate_resource_allPass (cfg : LocalCfg) (env : SysEnv) :
    ∀ desc : List (String × RValue),
      (∀ kv ∈ desc, keyPasses cfg env kv) →
      rate_resource cfg env desc = loadCheck cfg env := by
  intro desc
  induction desc with
  | nil => intro _; rfl
  | cons hd rest ih =>
      intro hall
      obtain ⟨k, v⟩ := hd
      have hhd := hall (k, v) (List.mem_cons_self _ rest)
      have hrest := ih fun kv hm => hall kv (List.mem_cons_of_mem _ hm)
      rw [rate_resource]
      unfold keyPasses at hhd
      by_cases h1 : k = "localhost"
      · rw [if_pos h1]
        rw [if_pos h1] at hhd
        simp only [hhd, Bool.not_true, if_neg] at *
        simpa [hhd] using hrest
      · rw [if_neg h1]; rw [if_neg h1] at hhd
        by_cases h2 : k = "n_cpus"
        · rw [if_pos h2]; rw [if_pos h2] at hhd
          rw [if_neg hhd]; exact hrest
        · rw [if_neg h2]; rw [if_neg h2] at hhd
          by_cases h3 : k = "required_distributions"
          · rw [if_pos h3]; rw [if_pos h3] at hhd
            rw [if_neg hhd]; exact hrest
          · rw [if_neg h3]; rw [if_neg h3] at hhd
            by_cases h4 : k = "orphan_modules"
            · rw [if_pos h4]; rw [if_pos h4] at hhd
              rw [if_neg hhd]; exact hrest
            · rw [if_neg h4]; rw [if_neg h4] at hhd
              by_cases h5 : k = "python_version"
              · rw [if_pos h5]; rw [if_pos h5] at hhd
                rw [if_neg (by simp [hhd])]; exact hrest
              · rw [if_neg h5]; rw [if_neg h5] at hhd
                exact absurd hhd not_false

/-- The rating `rate_resource` produces is only ever `-2`, `-1` or `0`. -/
theorem rate_resource_score_mem (cfg : LocalCfg) (env : SysEnv) :
    ∀ desc : List (String × RValue),
      (rate_resource cfg env desc).1 = -2 ∨ (rate_resource cfg env desc).1 = -1 ∨
        (rate_resource cfg env desc).1 = 0 := by
  intro desc
  induction desc with
  | nil =>
      show (loadCheck cfg env).1 = -2 ∨ (loadCheck cfg env).1 = -1 ∨
        (loadCheck cfg env).1 = 0
      unfold loadCheck
      cases hl : env.loadavgs with
      | none => right; right; rfl
      | some t =>
          obtain ⟨one, five, fifteen⟩ := t
          dsimp only
          by_cases h : one < cfg.max_load
          · rw [if_pos h]; right; right; rfl
          · rw [if_neg h]; right; left; rfl
  | cons hd rest ih =>
      obtain ⟨k, v⟩ := hd
      rw [rate_resource]
      by_cases h1 : k = "localhost"
      · rw [if_pos h1]; split
        · left; rfl
        · exact ih
      · rw [if_neg h1]
        by_cases h2 : k = "n_cpus"
        · rw [if_pos h2]; split
          · left; rfl
          · exact ih
        · rw [if_neg h2]
          by_cases h3 : k = "required_distributions"
          · rw [if_pos h3]; split
            · next hneg => left; exact (check_required_neg env v.asDists hneg).1
            · exact ih
          · rw [if_neg h3]
            by_cases h4 : k = "orphan_modules"
            · rw [if_pos h4]; split
              · next hneg => left; exact (check_orphan_neg env v.asMods hneg).1
              · exact ih
            · rw [if_neg h4]
              by_cases h5 : k = "python_version"
              · rw [if_pos h5]; split
                · left; rfl
                · exact ih
              · rw [if_neg h5]; left; rfl

theorem consecFrom_zero (al : Nat) : consecFrom al 0 = [] := rfl

theorem consecFrom_succ (al m : Nat) :
    consecFrom al (m + 1) = (al + 1) :: consecFrom (al + 1) m := by
  unfold consecFrom
  rw [List.range_succ_eq_map, List.map_cons, List.map_map]
  refine congrArg₂ _ rfl (List.map_congr_left fun a _ => ?_)
  simp [Function.comp]
  omega

theorem consecFrom_mem (al m x : Nat) (h : x ∈ consecFrom al m) :
    al < x ∧ x ≤ al + m := by
  unfold consecFrom at h
  obtain ⟨i, hi, rfl⟩ := List.mem_map.mp h
  have := List.mem_range.mp hi
  omega

theorem consecFrom_pairwise (al m : Nat) :
    (consecFrom al m).Pairwise (· < ·) := by
  unfold consecFrom
  refine List.pairwise_map.mpr ?_
  have := List.pairwise_lt_range m
  exact this.imp fun {a b} h => by omega

/-- Return branch of a loop iteration when the best score is negative but
not `-1`. -/
theorem allocLoop_succ_neg (env : Env) (fuel : Nat) (s : LoopState)
    (h0 : ¬ 0 ≤ (getScores (env.rounds s.passes)).score)
    (h1 : (getScores (env.rounds s.passes)).score ≠ -1) :
    allocLoop env (fuel + 1) s = (.ok none, { s with passes := s.passes + 1 }) := by
  rw [allocLoop, if_neg h0, if_pos h1]

/-- Branch of a loop iteration when the best score is exactly `-1`: the
`time.sleep(1)` call raises `NameError` because `time` is not imported. -/
theorem allocLoop_succ_shortage (env : Env) (fuel : Nat) (s : LoopState)
    (h : (getScores (env.rounds s.passes)).score = -1) :
    allocLoop env (fuel + 1) s =
      (.err (.nameError "time"), { s with passes := s.passes + 1 }) := by
  rw [allocLoop, if_neg (by rw [h]; norm_num), if_neg (by rw [h]; simp),
    if_neg (by decide)]

/-- Return branch of a loop iteration on a successful deployment. -/
theorem allocLoop_succ_deploy (env : Env) (fuel : Nat) (s : LoopState)
    (a : Nat) (server : Server)
    (h0 : 0 ≤ (getScores (env.rounds s.passes)).score)
    (ha : (getScores (env.rounds s.passes)).alloc = some a)
    (hd : env.deploy a s.deploys.length = some server) :
    allocLoop env (fuel + 1) s =
      (.ok (some (server, serverInfoOf server)),
       { s with passes := s.passes + 1,
                allocations := s.allocations + 1,
                deploys := s.deploys ++ [s.allocations + 1] }) := by
  rw [allocLoop, if_pos h0, ha]
  dsimp only
  rw [hd]

/-- Branches of a loop iteration on a failed deployment: abort with
`(None, None)` after the 11th failure, otherwise re-enter the loop. -/
theorem allocLoop_succ_deploy_fail (env : Env) (fuel : Nat) (s : LoopState)
    (a : Nat)
    (h0 : 0 ≤ (getScores (env.rounds s.passes)).score)
    (ha : (getScores (env.rounds s.passes)).alloc = some a)
    (hd : env.deploy a s.deploys.length = none) :
    allocLoop env (fuel + 1) s =
      if 10 < s.retries + 1 then
        (.ok none,
         { s with passes := s.passes + 1,
                  allocations := s.allocations + 1,
                  deploys := s.deploys ++ [s.allocations + 1],
                  retries := s.retries + 1 })
      else
        allocLoop env fuel
          { s with passes := s.passes + 1,
                   allocations := s.allocations + 1,
                   deploys := s.deploys ++ [s.allocations + 1],
                   retries := s.retries + 1 } := by
  rw [allocLoop, if_pos h0, ha]
  dsimp only
  rw [hd]

/-- Against an environment whose best score is always serviceable but whose
deployments always fail, the loop runs `11 - retries` more scoring/deploy
cycles and then returns `(None, None)`. -/
theorem allocLoop_always_fail (env : Env)
    (hscore : ∀ t, 0 ≤ (getScores (env.rounds t)).score)
    (hdeploy : ∀ a d, env.deploy a d = none) :
    ∀ fuel (s : LoopState), s.retries ≤ 10 → 11 - s.retries ≤ fuel →
      allocLoop env fuel s =
        (.ok none,
         { retries := 11,
           allocations := s.allocations + (11 - s.retries),
           passes := s.passes + (11 - s.retries),
           deploys := s.deploys ++ consecFrom s.allocations (11 - s.retries),
           sleeps := s.sleeps }) := by
  intro fuel
  induction fuel with
  | zero => intro s h10 hfuel; omega
  | succ f ih =>
      intro s h10 hfuel
      have h0 := hscore s.passes
      have hne : (getScores (env.rounds s.passes)).score ≠ -2 := by
        intro h; rw [h] at h0; norm_num at h0
      obtain ⟨a, ha⟩ := Option.isSome_iff_exists.mp
        (getScores_alloc_of_score_ne (env.rounds s.passes) hne)
      rw [allocLoop_succ_deploy_fail env f s a h0 ha (hdeploy a s.deploys.length)]
      by_cases hr : s.retries = 10
      · rw [if_pos (by omega)]
        have h1 : 11 - s.retries = 1 := by omega
        rw [h1, hr]
        have : consecFrom s.allocations 1 = [s.allocations + 1] := rfl
        rw [this]
      · rw [if_neg (by omega)]
        rw [ih _ (by simp; omega) (by simp; omega)]
        have h2 : 11 - (s.retries + 1) = 10 - s.retries := by omega
        have h3 : 11 - s.retries = (10 - s.retries) + 1 := by omega
        simp only [h2, h3]
        have h4 : s.allocations + 1 + (10 - s.retries) =
            s.allocations + ((10 - s.retries) + 1) := by omega
        have h5 : s.passes + 1 + (10 - s.retries) =
            s.passes + ((10 - s.retries) + 1) := by omega
        rw [h4, h5, consecFrom_succ, List.append_assoc]
        rfl

theorem digitsVal_append (l : List Nat) (d : Nat) :
    digitsVal (l ++ [d]) = 10 * digitsVal l + d := by
  unfold digitsVal
  rw [List.foldl_append]
  rfl

theorem digitsVal_digits10 (n : Nat) : digitsVal (digits10 n) = n := by
  induction n using Nat.strong_induction_on with
  | _ n ih =>
      rw [digits10]
      by_cases h : n < 10
      · rw [dif_pos h]
        show 10 * 0 + n = n
        omega
      · rw [dif_neg h]
        rw [digitsVal_append, ih (n / 10) (Nat.div_lt_self (by omega) (by omega))]
        omega

theorem digits10_lt (n : Nat) : ∀ d ∈ digits10 n, d < 10 := by
  induction n using Nat.strong_induction_on with
  | _ n ih =>
      rw [digits10]
      by_cases h : n < 10
      · rw [dif_pos h]
        intro d hd
        rw [List.mem_singleton] at hd
        omega
      · rw [dif_neg h]
        intro d hd
        rcases List.mem_append.mp hd with hmem | hmem
        · exact ih (n / 10) (Nat.div_lt_self (by omega) (by omega)) d hmem
        · rw [List.mem_singleton] at hmem
          subst hmem
          exact Nat.mod_lt n (by omega)

theorem digitChar_inj_lt :
    ∀ a < 10, ∀ b < 10, Nat.digitChar a = Nat.digitChar b → a = b := by decide

theorem map_digitChar_inj :
    ∀ l1 l2 : List Nat, (∀ d ∈ l1, d < 10) → (∀ d ∈ l2, d < 10) →
      l1.map Nat.digitChar = l2.map Nat.digitChar → l1 = l2 := by
  intro l1
  induction l1 with
  | nil =>
      intro l2 _ _ h
      cases l2 with
      | nil => rfl
      | cons b t2 => simp at h
  | cons a t ih =>
      intro l2 h1 h2 h
      cases l2 with
      | nil => simp at h
      | cons b t2 =>
          rw [List.map_cons, List.map_cons] at h
          have hab := List.head_eq_of_cons_eq h
          have htl := List.tail_eq_of_cons_eq h
          have ha := h1 a (List.mem_cons_self a t)
          have hb := h2 b (List.mem_cons_self b t2)
          rw [digitChar_inj_lt a ha b hb hab,
            ih t2 (fun d hd => h1 d (List.mem_cons_of_mem a hd))
              (fun d hd => h2 d (List.mem_cons_of_mem b hd)) htl]

/-- Core's `Nat.toDigitsCore` with enough fuel produces exactly the decimal digit
characters, prepended to its accumulator. -/
theorem toDigitsCore_eq_digits10 :
    ∀ fuel n ds, n < fuel →
      Nat.toDigitsCore 10 fuel n ds = (digits10 n).map Nat.digitChar ++ ds := by
  intro fuel
  induction fuel with
  | zero => intro n ds h; omega
  | succ f ih =>
      intro n ds h
      simp only [Nat.toDigitsCore]
      by_cases h10 : n < 10
      · have hdiv : n / 10 = 0 := Nat.div_eq_of_lt h10
        rw [if_pos hdiv, digits10, dif_pos h10]
        rw [Nat.mod_eq_of_lt h10]
        rfl
      · have hdiv : ¬ n / 10 = 0 := by omega
        rw [if_neg hdiv]
        have hlt : n / 10 < f := by
          have h1 : n / 10 < n := Nat.div_lt_self (by omega) (by omega)
          omega
        rw [ih (n / 10) (Nat.digitChar (n % 10) :: ds) hlt]
        conv_rhs => rw [digits10]
        rw [dif_neg h10]
        rw [List.map_append]
        simp

/-- Decimal rendering is injective: distinct numbers print differently. -/
theorem natRepr_inj (n m : Nat) (h : Nat.repr n = Nat.repr m) : n = m := by
  unfold Nat.repr Nat.toDigits at h
  rw [toDigitsCore_eq_digits10 (n + 1) n [] (Nat.lt_succ_self n),
    toDigitsCore_eq_digits10 (m + 1) m [] (Nat.lt_succ_self m)] at h
  rw [List.append_nil, List.append_nil] at h
  rw [List.asString_inj] at h
  have := map_digitChar_inj (digits10 n) (digits10 m) (digits10_lt n) (digits10_lt m) h
  calc n = digitsVal (digits10 n) := (digitsVal_digits10 n).symm
    _ = digitsVal (digits10 m) := by rw [this]
    _ = m := digitsVal_digits10 m

/-- Names `'Sim-%d'` built from distinct counters are distinct. -/
theorem simName_inj (n m : Nat) (h : simName n = simName m) : n = m := by
  unfold simName at h
  have hdata := congrArg String.data h
  rw [String.data_append, String.data_append] at hdata
  have := List.append_cancel_left hdata
  exact natRepr_inj n m (by
    have h2 : (Nat.repr n).data = (Nat.repr m).data := this
    cases hn : Nat.repr n with
    | mk l1 =>
        cases hm : Nat.repr m with
        | mk l2 =>
            rw [hn, hm] at h2
            simp at h2
            rw [h2])

/-- Every run of the loop consumes a consecutive block of fresh counter
values, one per deploy attempt, starting just above the counter it entered
with. -/
theorem allocLoop_block (env : Env) :
    ∀ fuel (s : LoopState), ∃ m,
      (allocLoop env fuel s).2.allocations = s.allocations + m ∧
      (allocLoop env fuel s).2.deploys = s.deploys ++ consecFrom s.allocations m := by
  intro fuel
  induction fuel with
  | zero =>
      intro s
      exact ⟨0, rfl, by simp [allocLoop, consecFrom_zero]⟩
  | succ f ih =>
      intro s
      by_cases h0 : 0 ≤ (getScores (env.rounds s.passes)).score
      · cases ha : (getScores (env.rounds s.passes)).alloc with
        | none =>
            refine ⟨0, ?_, ?_⟩ <;>
              · rw [allocLoop, if_pos h0, ha]
                simp [consecFrom_zero]
        | some a =>
            cases hd : env.deploy a s.deploys.length with
            | some server =>
                refine ⟨1, ?_, ?_⟩
                · rw [allocLoop_succ_deploy env f s a server h0 ha hd]
                · rw [allocLoop_succ_deploy env f s a server h0 ha hd]
                  simp [consecFrom, List.range_succ]
            | none =>
                rw [allocLoop_succ_deploy_fail env f s a h0 ha hd]
                by_cases hr : 10 < s.retries + 1
                · rw [if_pos hr]
                  exact ⟨1, rfl, by simp [consecFrom, List.range_succ]⟩
                · rw [if_neg hr]
                  obtain ⟨m', hm1, hm2⟩ := ih
                    { s with passes := s.passes + 1,
                             allocations := s.allocations + 1,
                             deploys := s.deploys ++ [s.allocations + 1],
                             retries := s.retries + 1 }
                  refine ⟨m' + 1, ?_, ?_⟩
                  · rw [hm1]
                    dsimp only
                    omega
                  · rw [hm2]
                    dsimp only
                    rw [consecFrom_succ, List.append_assoc]
                    rfl
      · by_cases h1 : (getScores (env.rounds s.passes)).score ≠ -1
        · rw [allocLoop_succ_neg env f s h0 h1]
          exact ⟨0, rfl, by simp [consecFrom_zero]⟩
        · push_neg at h1
          rw [allocLoop_succ_shortage env f s h1]
          exact ⟨0, rfl, by simp [consecFrom_zero]⟩

/-- Across a sequence of `allocate` calls the consumed counter values are
strictly increasing, all above the starting counter and bounded by the final
one. -/
theorem runSeq_spec :
    ∀ (calls : List (Env × Nat)) (a0 : Nat),
      a0 ≤ (runSeq calls a0).1 ∧
      (runSeq calls a0).2.Pairwise (· < ·) ∧
      ∀ x ∈ (runSeq calls a0).2, a0 < x ∧ x ≤ (runSeq calls a0).1 := by
  intro calls
  induction calls with
  | nil =>
      intro a0
      refine ⟨le_refl a0, List.Pairwise.nil, ?_⟩
      intro x hx
      exact absurd hx (List.not_mem_nil x)
  | cons c rest ih =>
      intro a0
      obtain ⟨env, fuel⟩ := c
      obtain ⟨m, hm1, hm2⟩ := allocLoop_block env fuel ⟨0, a0, 0, [], 0⟩
      have hm2' : (runAllocate env a0 fuel).2.deploys = consecFrom a0 m := by
        rw [runAllocate, hm2]
        rfl
      have hm1' : (runAllocate env a0 fuel).2.allocations = a0 + m := hm1
      obtain ⟨hle, hpw, hmem⟩ := ih (a0 + m)
      show a0 ≤ (runSeq ((env, fuel) :: rest) a0).1 ∧ _ ∧ _
      rw [runSeq]
      rw [hm1', hm2']
      refine ⟨by omega, ?_, ?_⟩
      · rw [List.pairwise_append]
        refine ⟨consecFrom_pairwise a0 m, hpw, ?_⟩
        intro x hx y hy
        have hxb := consecFrom_mem a0 m x hx
        have hyb := (hmem y hy).1
        omega
      · intro x hx
        rcases List.mem_append.mp hx with hmem1 | hmem2
        · have hxb := consecFrom_mem a0 m x hmem1
          have := hle
          constructor
          · omega
          · omega
        · have hxb := hmem x hmem2
          constructor
          · omega
          · exact hxb.2

/-! ### Claim theorems -/

/-- C1, counterexample: with scores `0, 5, 0` the chosen best score is `0`,
but the selected allocator is the one at registration index 2 even though
the allocator at index 0 returned that same best score — the claimed
universal lowest-index tie-break law is false (the third adoption condition
lacks a positivity guard on the candidate). -/
theorem C1_counterexample :
    (getScores rsTie).score = 0 ∧ (getScores rsTie).alloc = some 2 ∧
      (rsTie.get ⟨0, by decide⟩).score = (getScores rsTie).score ∧
      (getScores rsTie).alloc ≠ some 0 := by decide

/-- C1 (amended): the adoption rule is as stated, and the tie-break
consequence holds whenever no allocator returns a positive score: the
selected allocator's score is the reported best, and no earlier-registered
allocator returned that score — so among allocators tied at the chosen best
score the lowest registration index wins. -/
theorem C1_tie_break_nonpos (rs : List Response)
    (hall : ∀ r ∈ rs, r.score ≤ 0) (k : Nat)
    (hk : (getScores rs).alloc = some k) :
    ∃ hlt : k < rs.length,
      (rs.get ⟨k, hlt⟩).score = (getScores rs).score ∧
      ∀ j (hj : j < k), (rs.get ⟨j, lt_trans hj hlt⟩).score ≠ (getScores rs).score := by
  obtain ⟨j, hj, hkj, hge, hscore, hmin⟩ := getScores_nonpos_char rs hall 0 k hk
  have hjk : j = k := by omega
  subst hjk
  have hscore2 : (rs.get ⟨j, hj⟩).score = (getScores rs).score := hscore
  refine ⟨hj, hscore2, ?_⟩
  intro j' hj' hEq
  have hlt : (rs.get ⟨j', lt_trans hj' hj⟩).score < -1 := hmin j' hj'
  have hEq2 : (rs.get ⟨j', lt_trans hj' hj⟩).score = (getScores rs).score := hEq
  rw [hEq2] at hlt
  rw [← hscore2] at hlt
  linarith

/-- C1 witness: scores `-2, 0, 0` select index 1, and no earlier allocator
scored the chosen best `0`. -/
theorem C1_witness :
    ∃ hlt : 1 < rsTieW.length,
      (rsTieW.get ⟨1, hlt⟩).score = (getScores rsTieW).score ∧
      ∀ j (hj : j < 1), (rsTieW.get ⟨j, lt_trans hj hlt⟩).score ≠ (getScores rsTieW).score :=
  C1_tie_break_nonpos rsTieW (by decide) 1 (by decide)

/-- C2, counterexample: with scores `-1, 0` some allocator can serve
(score `0` at index 1), yet the chosen best score is `-1`: a
transiently-unavailable allocator registered earlier shadows a later one
that can serve. -/
theorem C2_counterexample :
    (0 : ℚ) ≤ (rsServe.get ⟨1, by decide⟩).score ∧
      ¬ 0 ≤ (getScores rsServe).score := by decide

/-- C2 (amended): when no allocator scores positively, an allocator scoring
`>= 0` is chosen provided every allocator registered before it scored below
`-1`. -/
theorem C2_serves_wins (rs : List Response)
    (hall : ∀ r ∈ rs, r.score ≤ 0)
    (i : Nat) (hi : i < rs.length)
    (h0 : 0 ≤ (rs.get ⟨i, hi⟩).score)
    (hpre : ∀ j (hj : j < i), (rs.get ⟨j, lt_trans hj hi⟩).score < -1) :
    0 ≤ (getScores rs).score := by
  have hge : -1 ≤ (rs.get ⟨i, hi⟩).score := le_trans (by norm_num) h0
  have heq := getScoresFrom_first rs 0 i hi hall hpre hge
  rw [getScores, heq]
  exact h0

/-- C2 witness: scores `-2, 0` give a nonnegative best. -/
theorem C2_witness : 0 ≤ (getScores rsServeW).score :=
  C2_serves_wins rsServeW (by decide) 1 (by decide) (by decide) (by decide)

/-- C3: when every allocator answers `-1` (here, a `LocalAllocator` on a
host whose load average is at `max_load`), `_allocate` does not sleep and
retry: the `time.sleep(1)` call raises `NameError` because `time` is never
imported in `resource.py`.  One scoring pass runs, no deploy and no
completed sleep happen, and the exception propagates. -/
theorem C3_shortage_nameerror :
    runAllocate envShortage 0 5 = (.err (.nameError "time"), ⟨0, 0, 1, [], 0⟩) ∧
      "time" ∉ moduleTopNames := by decide

/-- C4: against an allocator that always wins with a serviceable score but
whose deployments always fail, `allocate` performs exactly 11 scoring/deploy
cycles (`passes = 11`, one deploy per pass consuming counter values
`a0+1 … a0+11`) and returns `(None, None)`. -/
theorem C4_retry_bound (env : Env) (a0 fuel : Nat)
    (hscore : ∀ t, 0 ≤ (getScores (env.rounds t)).score)
    (hdeploy : ∀ a d, env.deploy a d = none)
    (hfuel : 11 ≤ fuel) :
    runAllocate env a0 fuel = (.ok none, ⟨11, a0 + 11, 11, consecFrom a0 11, 0⟩) := by
  rw [runAllocate]
  rw [allocLoop_always_fail env hscore hdeploy fuel ⟨0, a0, 0, [], 0⟩
    (show (0 : Nat) ≤ 10 by omega) (show (11 : Nat) - 0 ≤ fuel by omega)]
  rfl

/-- C4 witness: the failing-deploy allocator with fuel 11. -/
theorem C4_witness :
    runAllocate envFailDeploy 0 11 = (.ok none, ⟨11, 11, 11, consecFrom 0 11, 0⟩) :=
  C4_retry_bound envFailDeploy 0 11
    (fun t => by
      have h : (0 : ℚ) ≤ (getScores [⟨0, .pyNone⟩]).score := by decide
      exact h)
    (fun a d => rfl) (by omega)

/-- C5: when the first scoring pass reports best score `-2`, `allocate`
returns `(None, None)` immediately: one scoring pass, no deploy call, no
retry, no sleep. -/
theorem C5_fail_fast (env : Env) (a0 fuel : Nat)
    (h : (getScores (env.rounds 0)).score = -2) :
    runAllocate env a0 (fuel + 1) = (.ok none, ⟨0, a0, 1, [], 0⟩) := by
  rw [runAllocate]
  rw [allocLoop_succ_neg env fuel ⟨0, a0, 0, [], 0⟩
    (show ¬ 0 ≤ (getScores (env.rounds 0)).score by rw [h]; norm_num)
    (show (getScores (env.rounds 0)).score ≠ -1 by rw [h]; norm_num)]

/-- C5 witness: a request `{'localhost': False}` against only a
`LocalAllocator` scores `-2` and fails immediately. -/
theorem C5_witness :
    runAllocate envNotLocal 7 3 = (.ok none, ⟨0, 7, 1, [], 0⟩) :=
  C5_fail_fast envNotLocal 7 2 (by decide)

/-- C6: a request containing any unrecognized key is rated `-2` by
`LocalAllocator.rate_resource`, and the criteria returned are never
load-average figures. -/
theorem C6_unrecognized_key (cfg : LocalCfg) (env : SysEnv)
    (desc : List (String × RValue))
    (h : ∃ kv ∈ desc, kv.1 ∉ recognizedKeys) :
    (rate_resource cfg env desc).1 = -2 ∧ notLoad (rate_resource cfg env desc).2 :=
  rate_resource_unrecognized cfg env desc h

/-- C6 witness: the unrecognized key `gpu`. -/
theorem C6_witness :
    (rate_resource cfgDefault envStd [("gpu", .num 1)]).1 = -2 ∧
      notLoad (rate_resource cfgDefault envStd [("gpu", .num 1)]).2 :=
  C6_unrecognized_key cfgDefault envStd [("gpu", .num 1)]
    ⟨("gpu", .num 1), by decide, by decide⟩

/-- C7: when every key passes, `rate_resource` consults the load average:
unavailable gives score `0`; otherwise a 1-minute load below `max_load`
gives `0` and at/above gives `-1`, both compare cases attaching the load
figures and `max_load` as criteria. -/
theorem C7_load_check (cfg : LocalCfg) (env : SysEnv)
    (desc : List (String × RValue))
    (h : ∀ kv ∈ desc, keyPasses cfg env kv) :
    (env.loadavgs = none → rate_resource cfg env desc = (0, .emptyDict)) ∧
    ∀ one five fifteen, env.loadavgs = some (one, five, fifteen) →
      (one < cfg.max_load →
        rate_resource cfg env desc = (0, .load one five fifteen cfg.max_load)) ∧
      (¬ one < cfg.max_load →
        rate_resource cfg env desc = (-1, .load one five fifteen cfg.max_load)) := by
  have heq := rate_resource_allPass cfg env desc h
  refine ⟨?_, ?_⟩
  · intro hn
    rw [heq]
    unfold loadCheck
    rw [hn]
  · intro one five fifteen hs
    refine ⟨?_, ?_⟩
    · intro hlt
      rw [heq]
      unfold loadCheck
      rw [hs]
      dsimp only
      rw [if_pos hlt]
    · intro hge
      rw [heq]
      unfold loadCheck
      rw [hs]
      dsimp only
      rw [if_neg hge]

/-- C7 witness: `{'localhost': True, 'n_cpus': 1}` on the standard host,
whose load `(1, 0, 0)` is below `max_load = 2`. -/
theorem C7_witness :
    rate_resource cfgDefault envStd [("localhost", .bool true), ("n_cpus", .num 1)] =
      (0, .load 1 0 0 2) := by
  have h := (C7_load_check cfgDefault envStd
    [("localhost", .bool true), ("n_cpus", .num 1)] (by decide)).2 1 0 0 rfl
  exact h.1 (by norm_num [cfgDefault])

/-- C8: across every sequence of `allocate` calls on one manager, the
counter values consumed by deploy attempts (one per attempt, fresh even for
retried failures) are strictly increasing, and the synthesized `Sim-<n>`
names are pairwise distinct: no name is ever reused. -/
theorem C8_unique_names (calls : List (Env × Nat)) (a0 : Nat) :
    (runSeq calls a0).2.Pairwise (· < ·) ∧
      ((runSeq calls a0).2.map simName).Pairwise (· ≠ ·) := by
  obtain ⟨-, hpw, -⟩ := runSeq_spec calls a0
  refine ⟨hpw, ?_⟩
  rw [List.pairwise_map]
  refine hpw.imp ?_
  intro a b hab h
  exact absurd (simName_inj a b h) (Nat.ne_of_lt hab)

/-- C9: `release` returns normally whatever `cleanup()` does; when cleanup
raises, the failure is logged — through the logger, or on `sys.stderr` when
the logger itself raises — and never propagated. -/
theorem C9_release_swallows (server : ReleasedServer) (loggerRaises : Bool) :
    (release server loggerRaises).1 = .ok () ∧
    ∀ trace, server.cleanup = .error trace →
      (release server loggerRaises).2 =
        (if loggerRaises then [.stderrPrint server.name trace]
         else [.warning server.name trace]) := by
  refine ⟨?_, ?_⟩
  · unfold release
    cases server.cleanup with
    | ok u => rfl
    | error tr => cases loggerRaises <;> rfl
  · intro trace ht
    unfold release
    rw [ht]
    cases loggerRaises <;> rfl

/-- C9 witness: a failing cleanup with a failing logger still returns
normally and prints to stderr. -/
theorem C9_witness :
    (release srvBadCleanup true).1 = .ok () ∧
      (release srvBadCleanup true).2 = [.stderrPrint "Sim-1" "boom"] :=
  ⟨(C9_release_swallows srvBadCleanup true).1,
   by have h := (C9_release_swallows srvBadCleanup true).2 "boom" rfl
      simpa using h⟩

/-- C10: `LocalAllocator.rate_resource` only ever returns `-2`, `-1` or `0`,
never a positive estimate; consequently, over responses drawn from that
range, whenever selection reports best score `0` the chosen allocator is
the first-registered one scoring `0`. -/
theorem C10_no_positive (cfg : LocalCfg) (env : SysEnv)
    (desc : List (String × RValue)) :
    ((rate_resource cfg env desc).1 = -2 ∨ (rate_resource cfg env desc).1 = -1 ∨
      (rate_resource cfg env desc).1 = 0) ∧
    ∀ rs : List Response,
      (∀ r ∈ rs, r.score = -2 ∨ r.score = -1 ∨ r.score = 0) →
      ∀ k, (getScores rs).alloc = some k → (getScores rs).score = 0 →
        ∃ hk : k < rs.length, (rs.get ⟨k, hk⟩).score = 0 ∧
          ∀ j (hj : j < k), (rs.get ⟨j, lt_trans hj hk⟩).score ≠ 0 := by
  refine ⟨rate_resource_score_mem cfg env desc, ?_⟩
  intro rs hmem k halloc hscore
  have hall : ∀ r ∈ rs, r.score ≤ 0 := by
    intro r hr
    rcases hmem r hr with h | h | h <;> rw [h] <;> norm_num
  obtain ⟨j, hj, hkj, hge, hjscore, hmin⟩ := getScores_nonpos_char rs hall 0 k halloc
  have hjk : j = k := by omega
  subst hjk
  have hk0 : (rs.get ⟨j, hj⟩).score = 0 := by
    have hjscore2 : (rs.get ⟨j, hj⟩).score = (getScores rs).score := hjscore
    rw [hjscore2]
    exact hscore
  refine ⟨hj, hk0, ?_⟩
  intro j' hj' hEq
  have hlt : (rs.get ⟨j', lt_trans hj' hj⟩).score < -1 := hmin j' hj'
  have hEq2 : (rs.get ⟨j', lt_trans hj' hj⟩).score = 0 := hEq
  rw [hEq2] at hlt
  norm_num at hlt

/-- C10 witness: rating the empty request on the standard host, and a
single serving response selected at index 0. -/
theorem C10_witness :
    ((rate_resource cfgDefault envStd []).1 = -2 ∨
      (rate_resource cfgDefault envStd []).1 = -1 ∨
      (rate_resource cfgDefault envStd []).1 = 0) ∧
    ∃ hk : 0 < ([⟨0, .pyNone⟩] : List Response).length,
      (([⟨0, .pyNone⟩] : List Response).get ⟨0, hk⟩).score = 0 ∧
      ∀ j (hj : j < 0),
        (([⟨0, .pyNone⟩] : List Response).get ⟨j, lt_trans hj hk⟩).score ≠ 0 :=
  ⟨(C10_no_positive cfgDefault envStd []).1,
   (C10_no_positive cfgDefault envStd []).2 [⟨0, .pyNone⟩] (by decide) 0
     (by decide) (by decide)⟩

end OpenMDAOResource

